/-
Verification of the GPS-module repository: a shallow embedding of the NMEA
sentence decoder (src/NMEA.c, src/NMEA.h) and of the UART ring buffer
(src/RB/uart_RingBuffer.c), with theorems settling the frozen claims about
the natural-language specification.

Modelling conventions:
 * C strings are `String`/`List Char`; a possibly-NULL pointer argument is an
   `Option`.  Reading `token[i]` is `List.getD i (Char.ofNat 0)` (in-bounds
   accesses, the only ones the claims depend on, are exact).
 * C `float`/`double` arithmetic in `parse_coordinate`/`atof` is modelled by
   exact rational arithmetic (`ℚ`); the claims about these functions concern
   the algebraic structure of the computation, not float rounding.
 * Machine integers are `Int`/`Nat`; conversions that C defines (to unsigned
   types) carry an explicit `% 2^w`.  Signed overflow is not exercised by any
   claim.
 * The stateful ring buffer becomes explicit state passing on a `ring_buffer`
   structure; `store_char` is `void` in C, so the embedding returns, next to
   the new state, the `Bool` saying whether the byte was stored (the spec's
   `push -> bool`).
-/
import Mathlib

/-- The numeric value of an ASCII character relative to `'0'`, as the C
expression `c - '0'` computes it on values of type `int`. -/
def digitVal (c : Char) : Int := (c.toNat : Int) - 48

/-- `token[i]` for a tokenized field: in-bounds reads are exact; an
out-of-bounds read (undefined behaviour in the C source) is given the
arbitrary value `'\0'`, which no claim depends on. -/
def charAt (t : List Char) (i : Nat) : Char := t.getD i (Char.ofNat 0)

/-- The integer-part loop of `atof_fixed` (src/NMEA.c:55-59): consume leading
decimal digits into the accumulator, return the accumulator and the rest. -/
def intDigitsLoop : List Char → Int → Int × List Char
  | [], acc => (acc, [])
  | c :: cs, acc =>
    if c.isDigit then intDigitsLoop cs (acc * 10 + digitVal c) else (acc, c :: cs)

/-- The fractional-part loop of `atof_fixed` (src/NMEA.c:66-71): consume
digits while `scale_factor > 1`, dividing the scale factor by 10 each step. -/
def fracLoop : List Char → Int → Int → Int × Int
  | [], acc, sf => (acc, sf)
  | c :: cs, acc, sf =>
    if c.isDigit ∧ 1 < sf then fracLoop cs (acc * 10 + digitVal c) (sf / 10)
    else (acc, sf)

/-- The decimal-point dispatch of `atof_fixed` (src/NMEA.c:62-72): if the
remaining input starts with `'.'`, run the fractional loop on what follows. -/
def fracPart (l : List Char) (r sf : Int) : Int × Int :=
  match l with
  | c :: cs => if c = '.' then fracLoop cs r sf else (r, sf)
  | [] => (r, sf)

/-- The trailing scale loop of `atof_fixed` (src/NMEA.c:75-79):
`while (scale_factor > 1) { result *= 10; scale_factor /= 10; }`.
The loop runs at most `sf` iterations (the scale factor strictly decreases
while it exceeds 1), so fuel `sf.toNat` makes the recursion structural
without changing the computed value. -/
def scaleLoop : Nat → Int → Int → Int
  | 0, r, _ => r
  | fuel + 1, r, sf => if 1 < sf then scaleLoop fuel (r * 10) (sf / 10) else r

/-- `atof_fixed` (src/NMEA.c:38-82), the spec's `parseFixedPoint`: skip
leading spaces, read an optional sign, the integer digits, an optional
fractional part bounded by the scale, then pad the result up to the scale
and apply the sign. -/
def atof_fixed (s : String) (scale : Int) : Int :=
  let cs1 := s.data.dropWhile (fun c => c = ' ')
  let sign : Int := if cs1.headD ' ' = '-' then -1 else 1
  let cs2 := if cs1.headD ' ' = '-' ∨ cs1.headD ' ' = '+' then cs1.tail else cs1
  let ip := intDigitsLoop cs2 0
  let fp := fracPart ip.snd ip.fst scale
  scaleLoop fp.snd.toNat fp.fst fp.snd * sign

/-- The digit loop of the C library `atoi`/`atof` models: consume decimal
digits into a natural-number accumulator. -/
def natDigitsLoop : List Char → Nat → Nat × List Char
  | [], acc => (acc, [])
  | c :: cs, acc =>
    if c.isDigit then natDigitsLoop cs (acc * 10 + (c.toNat - 48)) else (acc, c :: cs)

/-- The natural number denoted by a list of decimal digit characters. -/
def natOfDigits (l : List Char) : Nat := (natDigitsLoop l 0).fst

/-- Model of the C library `atoi` as called by `decodeGGA` (src/NMEA.c:162,
165): optional spaces and sign, then decimal digits; no digits yields 0. -/
def atoiInt (cs : List Char) : Int :=
  let cs1 := cs.dropWhile (fun c => c = ' ')
  let sign : Int := if cs1.headD ' ' = '-' then -1 else 1
  let cs2 := if cs1.headD ' ' = '-' ∨ cs1.headD ' ' = '+' then cs1.tail else cs1
  sign * ((natDigitsLoop cs2 0).fst : Int)

/-- The discrete part of the C library `atof` on the decimal strings the
decoder feeds it: optional spaces and sign, integer digits, optional `'.'`
and fraction digits.  Returns the negative-sign flag, the integer part and
the list of fraction digits. -/
def atofParse (cs : List Char) : Bool × Nat × List Char :=
  let cs1 := cs.dropWhile (fun c => c = ' ')
  let neg := cs1.headD ' ' == '-'
  let cs2 := if cs1.headD ' ' = '-' ∨ cs1.headD ' ' = '+' then cs1.tail else cs1
  let ip := natDigitsLoop cs2 0
  let fracDigits : List Char :=
    match ip.snd with
    | c :: rest => if c = '.' then rest.takeWhile (fun d => d.isDigit) else []
    | [] => []
  (neg, ip.fst, fracDigits)

/-- Model of the C library `atof` as called by the decoder
(src/NMEA.c:101, 168, 218, 221): the value denoted by the parsed sign,
integer part and fraction digits.  Exponent forms never occur in NMEA fields
and are not modelled.  The double value is represented exactly in ℚ. -/
def atofRat (cs : List Char) : ℚ :=
  let p := atofParse cs
  (if p.fst then (-1 : ℚ) else 1) *
    ((p.snd.fst : ℚ) + (natOfDigits p.snd.snd : ℚ) / ((10 : ℚ) ^ p.snd.snd.length))

/-- The C cast `(int)q` of a real value: truncation toward zero.  For a
rational this is T-division of the numerator by the denominator. -/
def intTrunc (q : ℚ) : Int := q.num.tdiv q.den

/-- `parse_coordinate` (src/NMEA.c:99-112): DDMM.MMMM magnitude to decimal
degrees; whole degrees are the value cast to `int` after division by 100, the
remainder is minutes, divided by 60; `'S'`/`'W'` negate the result. -/
def parse_coordinate (str : List Char) (direction : Char) : ℚ :=
  let degrees : ℚ := atofRat str
  let int_degrees : Int := intTrunc (degrees / 100)
  let minutes : ℚ := degrees - (int_degrees * 100 : Int)
  let decimal_degrees : ℚ := (int_degrees : ℚ) + minutes / 60
  if direction = 'S' ∨ direction = 'W' then -decimal_degrees else decimal_degrees

/-- `TIME` as src/NMEA.c:145-147 accesses it: discrete `hour`/`min`/`sec`
fields receiving C `int` arithmetic on the token's characters. -/
structure TIME where
  hour : Int
  min : Int
  sec : Int
deriving DecidableEq

/-- `LOCATION` (src/NMEA.h:15-22): fixed-point latitude/longitude (`int32_t`,
assigned in src/NMEA.c:150,156 from a `float`, hence truncated toward zero)
and the two hemisphere characters.  The alignment padding carries no data and
is omitted. -/
structure LOCATION where
  latitude : Int
  longitude : Int
  NS : Char
  EW : Char
deriving DecidableEq

/-- `ALTITUDE` (src/NMEA.h:42-47): `int32_t` magnitude (assigned from
`atof`'s `double` in src/NMEA.c:168, hence truncated) and a unit character. -/
structure ALTITUDE where
  altitude : Int
  unit : Char
deriving DecidableEq

/-- `DATE` (src/NMEA.h:50-55): `uint8_t day`, `uint8_t month`,
`uint16_t year`. -/
structure DATE where
  day : Nat
  month : Nat
  year : Nat
deriving DecidableEq

/-- `GGASTRUCT` (src/NMEA.h:58-65).  `is_fix_valid` is `int8_t` assigned from
an `int`; no claim observes it, so it is kept as the `int` value.
`num_of_sat` is `uint8_t`, reduced `% 256` on assignment. -/
structure GGASTRUCT where
  location : LOCATION
  time : TIME
  altitude : ALTITUDE
  is_fix_valid : Int
  num_of_sat : Nat
deriving DecidableEq

/-- `RMCSTRUCT` (src/NMEA.h:68-74): date, `float` speed and course (exact in
ℚ), and the `int` validity flag. -/
structure RMCSTRUCT where
  date : DATE
  speed_knots : ℚ
  course : ℚ
  is_data_valid : Int
deriving DecidableEq

/-- `GPSSTRUCT` (src/NMEA.h:77-81). -/
structure GPSSTRUCT where
  ggastruct : GGASTRUCT
  rmcstruct : RMCSTRUCT
deriving DecidableEq

/-- Split a character list at every `','`, keeping empty fields: the
comma-separated fields of a sentence in left-to-right order. -/
def splitFields : List Char → List (List Char)
  | [] => [[]]
  | c :: cs =>
    if c = ',' then [] :: splitFields cs
    else
      match splitFields cs with
      | [] => [[c]]
      | f :: fs => (c :: f) :: fs

/-- The field sequence the spec's Sentence Field Tokenizer (§4.4) describes:
every field slice in left-to-right order, an empty slice between two
adjacent delimiters. -/
def specFieldSlices (cs : List Char) : List (List Char) := splitFields cs

/-- The token sequence the C `strtok(buffer, ",")` loop actually yields
(src/NMEA.c:136-174, 201-224): `strtok` treats runs of delimiters as one
separator, so exactly the non-empty fields are returned, in order. -/
def strtokTokens (cs : List Char) : List (List Char) :=
  (splitFields cs).filter (fun f => !f.isEmpty)

/-- One iteration of the `switch (field_num)` in `decodeGGA`
(src/NMEA.c:142-173). -/
def ggaStep (gga : GGASTRUCT) (field_num : Nat) (token : List Char) : GGASTRUCT :=
  if field_num = 1 then
    { gga with time :=
        { hour := (digitVal (charAt token 0)) * 10 + digitVal (charAt token 1),
          min := (digitVal (charAt token 2)) * 10 + digitVal (charAt token 3),
          sec := (digitVal (charAt token 4)) * 10 + digitVal (charAt token 5) } }
  else if field_num = 2 then
    { gga with location :=
        { gga.location with latitude := intTrunc (parse_coordinate token gga.location.NS) } }
  else if field_num = 3 then
    { gga with location := { gga.location with NS := charAt token 0 } }
  else if field_num = 4 then
    { gga with location :=
        { gga.location with longitude := intTrunc (parse_coordinate token gga.location.EW) } }
  else if field_num = 5 then
    { gga with location := { gga.location with EW := charAt token 0 } }
  else if field_num = 6 then
    { gga with is_fix_valid := atoiInt token }
  else if field_num = 7 then
    { gga with num_of_sat := ((atoiInt token) % 256).toNat }
  else if field_num = 9 then
    { gga with altitude := { gga.altitude with altitude := intTrunc (atofRat token) } }
  else if field_num = 10 then
    { gga with altitude := { gga.altitude with unit := charAt token 0 } }
  else gga

/-- The `while (token != NULL)` loop of `decodeGGA` (src/NMEA.c:140-176),
carrying `field_num`. -/
def ggaLoop (gga : GGASTRUCT) (field_num : Nat) : List (List Char) → GGASTRUCT
  | [] => gga
  | t :: ts => ggaLoop (ggaStep gga field_num t) (field_num + 1) ts

/-- The decoding work of `decodeGGA` on a non-null sentence and record. -/
def decodeGGAcore (s : String) (gga : GGASTRUCT) : GGASTRUCT :=
  ggaLoop gga 0 (strtokTokens s.data)

/-- `decodeGGA` (src/NMEA.c:128-178): `-1` when the sentence or the record
pointer is NULL (`none`), otherwise the tokenizing loop runs and the function
returns `0` together with the updated record. -/
def decodeGGA (GGAbuffer : Option String) (gga : Option GGASTRUCT) :
    Int × Option GGASTRUCT :=
  match GGAbuffer, gga with
  | some s, some g => (0, some (decodeGGAcore s g))
  | _, _ => (-1, gga)

/-- One iteration of the `switch (field_num)` in `decodeRMC`
(src/NMEA.c:207-223).  Field 1 stores the six characters as DDMMYY into
`uint8_t day`, `uint8_t month` and `uint16_t year` (hence the `% 256` and
`% 65536` of the C integer conversions). -/
def rmcStep (rmc : RMCSTRUCT) (field_num : Nat) (token : List Char) : RMCSTRUCT :=
  if field_num = 1 then
    { rmc with date :=
        { day := (((digitVal (charAt token 0)) * 10 + digitVal (charAt token 1)) % 256).toNat,
          month := (((digitVal (charAt token 2)) * 10 + digitVal (charAt token 3)) % 256).toNat,
          year := ((2000 + (digitVal (charAt token 4)) * 10 + digitVal (charAt token 5)) % 65536).toNat } }
  else if field_num = 2 then
    { rmc with is_data_valid := if charAt token 0 = 'A' then 1 else 0 }
  else if field_num = 3 then
    { rmc with speed_knots := atofRat token }
  else if field_num = 4 then
    { rmc with course := atofRat token }
  else rmc

/-- The `while (token != NULL)` loop of `decodeRMC` (src/NMEA.c:205-226). -/
def rmcLoop (rmc : RMCSTRUCT) (field_num : Nat) : List (List Char) → RMCSTRUCT
  | [] => rmc
  | t :: ts => rmcLoop (rmcStep rmc field_num t) (field_num + 1) ts

/-- The decoding work of `decodeRMC` on a non-null sentence and record. -/
def decodeRMCcore (s : String) (rmc : RMCSTRUCT) : RMCSTRUCT :=
  rmcLoop rmc 0 (strtokTokens s.data)

/-- `decodeRMC` (src/NMEA.c:193-228). -/
def decodeRMC (RMCbuffer : Option String) (rmc : Option RMCSTRUCT) :
    Int × Option RMCSTRUCT :=
  match RMCbuffer, rmc with
  | some s, some r => (0, some (decodeRMCcore s r))
  | _, _ => (-1, rmc)

/-- The all-zero `GPSSTRUCT` produced by `initGPS` (src/NMEA.c:236-239),
which `memset`s every field to 0. -/
def initGPS : GPSSTRUCT :=
  { ggastruct :=
      { location := { latitude := 0, longitude := 0,
                      NS := Char.ofNat 0, EW := Char.ofNat 0 },
        time := { hour := 0, min := 0, sec := 0 },
        altitude := { altitude := 0, unit := Char.ofNat 0 },
        is_fix_valid := 0, num_of_sat := 0 },
    rmcstruct :=
      { date := { day := 0, month := 0, year := 0 },
        speed_knots := 0, course := 0, is_data_valid := 0 } }

/-- `populateGPSData` (src/NMEA.c:255-269): decode the GGA sentence into the
GGA half, return `-1` if that fails; then decode the RMC sentence into the
RMC half, return `-1` if that fails; otherwise `0`.  A half already decoded
when a later failure occurs is not rolled back. -/
def populateGPSData (ggaSentence rmcSentence : Option String) (gps : GPSSTRUCT) :
    Int × GPSSTRUCT :=
  let r1 := decodeGGA ggaSentence (some gps.ggastruct)
  let gps1 := { gps with ggastruct := r1.snd.getD gps.ggastruct }
  if r1.fst ≠ 0 then (-1, gps1)
  else
    let r2 := decodeRMC rmcSentence (some gps1.rmcstruct)
    let gps2 := { gps1 with rmcstruct := r2.snd.getD gps1.rmcstruct }
    if r2.fst ≠ 0 then (-1, gps2) else (0, gps2)

/-- Modelled from the spec: `UART_BUFFER_SIZE` is defined in
`uart_RingBuffer.h`, which is not among the sources; the ring-buffer schema
comment in src/RB/uart_RingBuffer.c:145-163 documents that the indices wrap
back to 0 after 512, so the capacity constant is 512. -/
def UART_BUFFER_SIZE : Nat := 512

/-- The `ring_buffer` struct of src/RB/uart_RingBuffer.c: a byte array of
`UART_BUFFER_SIZE` cells (modelled as a total function on indices; only
indices below `UART_BUFFER_SIZE` are ever used) and the `head`/`tail`
indices. -/
structure ring_buffer where
  buffer : Nat → Nat
  head : Nat
  tail : Nat

/-- The initializer `{ { 0 }, 0, 0 }` of the receive buffer
(src/RB/uart_RingBuffer.c:28). -/
def rx_buffer : ring_buffer := { buffer := fun _ => 0, head := 0, tail := 0 }

/-- `store_char` (src/RB/uart_RingBuffer.c:65-77): advance a candidate head;
if it would collide with the tail the buffer is full and nothing happens,
otherwise the byte is written at the old head.  The C function returns
`void`; the `Bool` here records whether the byte was stored — the observable
effect the spec exposes as `push(byte) -> bool`.  The parameter is
`unsigned char`, hence the `% 256` conversion at the call boundary. -/
def store_char (c : Nat) (b : ring_buffer) : Bool × ring_buffer :=
  let i := (b.head + 1) % UART_BUFFER_SIZE
  if i ≠ b.tail then
    (true, { buffer := Function.update b.buffer b.head (c % 256),
             head := i, tail := b.tail })
  else (false, b)

/-- `Uart_read` (src/RB/uart_RingBuffer.c:125-143) acting on the receive
buffer, state passed explicitly: `-1` when empty, otherwise the byte at the
tail, with the tail advanced modulo the capacity. -/
def Uart_read (b : ring_buffer) : Int × ring_buffer :=
  if b.head = b.tail then (-1, b)
  else ((b.buffer b.tail : Int), { b with tail := (b.tail + 1) % UART_BUFFER_SIZE })

/-- `IsDataAvailable` (src/RB/uart_RingBuffer.c:262-265):
`(capacity + head - tail) % capacity`. -/
def IsDataAvailable (b : ring_buffer) : Nat :=
  (UART_BUFFER_SIZE + b.head - b.tail) % UART_BUFFER_SIZE

/-- A sequence of `store_char` calls, collecting each call's stored-flag. -/
def pushList : List Nat → ring_buffer → List Bool × ring_buffer
  | [], b => ([], b)
  | c :: cs, b =>
    let r := store_char c b
    let rest := pushList cs r.snd
    (r.fst :: rest.fst, rest.snd)

/-- A sequence of `Uart_read` calls, collecting each call's result. -/
def popList : Nat → ring_buffer → List Int × ring_buffer
  | 0, b => ([], b)
  | k + 1, b =>
    let r := Uart_read b
    let rest := popList k r.snd
    (r.fst :: rest.fst, rest.snd)

/-- Well-formedness of a ring-buffer state: both indices below the
capacity — true of the initial state and preserved by every operation. -/
def bufInv (b : ring_buffer) : Prop :=
  b.head < UART_BUFFER_SIZE ∧ b.tail < UART_BUFFER_SIZE

/-- The queue of bytes currently stored, oldest first: the cells from `tail`
(inclusive) to `head` (exclusive), in circular order. -/
def bufList (b : ring_buffer) : List Nat :=
  (List.range (IsDataAvailable b)).map
    (fun k => b.buffer ((b.tail + k) % UART_BUFFER_SIZE))

/-- A full buffer reachable by 511 successful pushes: every cell written,
head one slot (circularly) before the tail. -/
def fullBuf : ring_buffer := { buffer := fun _ => 0, head := 511, tail := 0 }

/-- 511 zero bytes: a sequence that exactly fills the buffer. -/
def L511 : List Nat := List.replicate 511 0

/-- The spec's well-formed GGA example sentence (§8). -/
def ggaExample : String := "$GPGGA,123456.00,3749.1234,N,12225.5678,W,1,08,1.0,15.6,M,,,*47"

theorem rx_buffer_inv : bufInv rx_buffer := by
  constructor <;> (simp [rx_buffer, UART_BUFFER_SIZE])

theorem rx_buffer_empty : IsDataAvailable rx_buffer = 0 := rfl

theorem rx_buffer_bufList : bufList rx_buffer = [] := rfl

theorem store_char_full (c : Nat) (b : ring_buffer)
    (hb : bufInv b) (hfull : IsDataAvailable b = 511) :
    store_char c b = (false, b) := by
  obtain ⟨hh, ht⟩ := hb
  simp only [UART_BUFFER_SIZE] at hh ht
  simp only [IsDataAvailable, UART_BUFFER_SIZE] at hfull
  have hcol : (b.head + 1) % 512 = b.tail := by omega
  simp [store_char, UART_BUFFER_SIZE, hcol]

theorem store_char_ok (c : Nat) (b : ring_buffer)
    (hb : bufInv b) (hlt : IsDataAvailable b < 511) :
    (store_char c b).fst = true
    ∧ bufInv (store_char c b).snd
    ∧ IsDataAvailable (store_char c b).snd = IsDataAvailable b + 1
    ∧ bufList (store_char c b).snd = bufList b ++ [c % 256] := by
  obtain ⟨hh, ht⟩ := hb
  simp only [UART_BUFFER_SIZE] at hh ht
  simp only [IsDataAvailable, UART_BUFFER_SIZE] at hlt
  have hne : (b.head + 1) % 512 ≠ b.tail := by omega
  simp only [store_char, UART_BUFFER_SIZE, if_pos hne]
  refine ⟨trivial, by simp only [bufInv, UART_BUFFER_SIZE]; constructor <;> omega,
    ?_, ?_⟩
  · simp only [IsDataAvailable, UART_BUFFER_SIZE]
    omega
  · simp only [bufList, IsDataAvailable, UART_BUFFER_SIZE]
    have hlen : (512 + (b.head + 1) % 512 - b.tail) % 512
        = (512 + b.head - b.tail) % 512 + 1 := by omega
    rw [hlen, List.range_succ, List.map_append]
    have h1 : List.map
          (fun k => Function.update b.buffer b.head (c % 256) ((b.tail + k) % 512))
          (List.range ((512 + b.head - b.tail) % 512))
        = List.map (fun k => b.buffer ((b.tail + k) % 512))
          (List.range ((512 + b.head - b.tail) % 512)) := by
      apply List.map_congr_left
      intro k hk
      have hk' : k < (512 + b.head - b.tail) % 512 := List.mem_range.mp hk
      have hne2 : (b.tail + k) % 512 ≠ b.head := by omega
      exact Function.update_noteq hne2 _ _
    have h2 : (b.tail + (512 + b.head - b.tail) % 512) % 512 = b.head := by omega
    simp only [List.map_cons, List.map_nil]
    rw [h1, h2]
    simp

theorem bufList_cons (b : ring_buffer)
    (hb : bufInv b) (hpos : 0 < IsDataAvailable b) :
    bufList b = b.buffer b.tail :: bufList (Uart_read b).snd
    ∧ (Uart_read b).fst = (b.buffer b.tail : Int)
    ∧ bufInv (Uart_read b).snd
    ∧ IsDataAvailable (Uart_read b).snd = IsDataAvailable b - 1 := by
  obtain ⟨hh, ht⟩ := hb
  simp only [UART_BUFFER_SIZE] at hh ht
  simp only [IsDataAvailable, UART_BUFFER_SIZE] at hpos
  have hne : b.head ≠ b.tail := by omega
  simp only [Uart_read, UART_BUFFER_SIZE, if_neg hne]
  refine ⟨?_, trivial,
    by simp only [bufInv, UART_BUFFER_SIZE]; constructor <;> omega, ?_⟩
  · simp only [bufList, IsDataAvailable, UART_BUFFER_SIZE]
    have hlen : (512 + b.head - b.tail) % 512
        = (512 + b.head - (b.tail + 1) % 512) % 512 + 1 := by omega
    rw [hlen, List.range_succ_eq_map, List.map_cons, List.map_map]
    have h0 : (b.tail + 0) % 512 = b.tail := by omega
    rw [h0]
    have h1 : List.map
          ((fun k => b.buffer ((b.tail + k) % 512)) ∘ Nat.succ)
          (List.range ((512 + b.head - (b.tail + 1) % 512) % 512))
        = List.map (fun k => b.buffer (((b.tail + 1) % 512 + k) % 512))
          (List.range ((512 + b.head - (b.tail + 1) % 512) % 512)) := by
      apply List.map_congr_left
      intro k _
      have hk : (b.tail + Nat.succ k) % 512 = ((b.tail + 1) % 512 + k) % 512 := by
        omega
      simp only [Function.comp_apply, hk]
    rw [h1]
  · simp only [IsDataAvailable, UART_BUFFER_SIZE]
    omega

theorem pushList_ok (L : List Nat) :
    ∀ b : ring_buffer, bufInv b → IsDataAvailable b + L.length ≤ 511 →
      (pushList L b).fst = L.map (fun _ => true)
      ∧ bufInv (pushList L b).snd
      ∧ IsDataAvailable (pushList L b).snd = IsDataAvailable b + L.length
      ∧ bufList (pushList L b).snd = bufList b ++ L.map (fun x => x % 256) := by
  induction L with
  | nil => intro b hb _; exact ⟨rfl, hb, by simp [pushList], by simp [pushList]⟩
  | cons c cs ih =>
    intro b hb hlen
    simp only [List.length_cons] at hlen
    obtain ⟨hfst, hinv, hcnt, hlst⟩ := store_char_ok c b hb (by omega)
    obtain ⟨ihf, ihi, ihc, ihl⟩ := ih (store_char c b).snd hinv (by omega)
    simp only [pushList]
    refine ⟨by rw [hfst, ihf]; rfl, ihi, by rw [ihc, hcnt]; simp [List.length_cons]; omega, ?_⟩
    rw [ihl, hlst, List.map_cons, List.append_assoc]
    rfl

theorem pushList_full (M : List Nat) :
    ∀ b : ring_buffer, bufInv b → IsDataAvailable b = 511 →
      pushList M b = (M.map (fun _ => false), b) := by
  induction M with
  | nil => intro b _ _; rfl
  | cons c cs ih =>
    intro b hb hfull
    simp only [pushList, store_char_full c b hb hfull, ih b hb hfull, List.map_cons]

theorem pushList_append (L M : List Nat) :
    ∀ b : ring_buffer,
      pushList (L ++ M) b
        = ((pushList L b).fst ++ (pushList M (pushList L b).snd).fst,
           (pushList M (pushList L b).snd).snd) := by
  induction L with
  | nil => intro b; simp [pushList]
  | cons c cs ih =>
    intro b
    show pushList (c :: (cs ++ M)) b = _
    simp only [pushList]
    rw [ih (store_char c b).snd]
    rfl

theorem popList_ok (J : Nat) :
    ∀ b : ring_buffer, bufInv b → J ≤ IsDataAvailable b →
      (popList J b).fst = ((bufList b).take J).map Int.ofNat
      ∧ bufInv (popList J b).snd
      ∧ IsDataAvailable (popList J b).snd = IsDataAvailable b - J := by
  induction J with
  | zero => intro b hb _; exact ⟨by simp [popList], hb, by simp [popList]⟩
  | succ j ih =>
    intro b hb hle
    obtain ⟨hdec, hfst, hinv, hcnt⟩ := bufList_cons b hb (by omega)
    obtain ⟨ihf, ihi, ihc⟩ := ih (Uart_read b).snd hinv (by omega)
    simp only [popList]
    refine ⟨?_, ihi, by rw [ihc, hcnt]; omega⟩
    rw [hdec]
    simp only [List.take_succ_cons, List.map_cons]
    rw [hfst, ihf]
    rfl

/-- Claim C2: from the empty receive buffer, any sequence of at most
capacity−1 = 511 byte pushes succeeds in full, and popping then returns
exactly those bytes in FIFO order; a push onto a full buffer is dropped —
the stored-flag is `false` and head, tail and the stored content are all
unchanged — so of a longer sequence exactly the first 511 pushes succeed and
the rest leave the buffer as it was after the 511th. -/
theorem ring_buffer_fifo_and_drop :
    (∀ L : List Nat, (∀ x ∈ L, x < 256) → L.length ≤ 511 →
      (pushList L rx_buffer).fst = L.map (fun _ => true)
      ∧ (popList L.length (pushList L rx_buffer).snd).fst = L.map Int.ofNat)
    ∧ (∀ (c : Nat) (b : ring_buffer), bufInv b → IsDataAvailable b = 511 →
        store_char c b = (false, b))
    ∧ (∀ L M : List Nat, L.length = 511 →
        pushList (L ++ M) rx_buffer
          = (L.map (fun _ => true) ++ M.map (fun _ => false),
             (pushList L rx_buffer).snd)) := by
  have hbytes : ∀ L : List Nat, (∀ x ∈ L, x < 256) →
      L.map (fun x => x % 256) = L := by
    intro L hL
    induction L with
    | nil => rfl
    | cons a l ih =>
      rw [List.map_cons, Nat.mod_eq_of_lt (hL a (by simp)),
        ih (fun x hx => hL x (List.mem_cons_of_mem a hx))]
  refine ⟨?_, fun c b hb hfull => store_char_full c b hb hfull, ?_⟩
  · intro L hL hlen
    obtain ⟨hf, hi, hc, hl⟩ := pushList_ok L rx_buffer rx_buffer_inv
      (by rw [rx_buffer_empty]; omega)
    rw [rx_buffer_bufList, List.nil_append, hbytes L hL] at hl
    refine ⟨hf, ?_⟩
    obtain ⟨pf, _, _⟩ := popList_ok L.length (pushList L rx_buffer).snd hi
      (by rw [hc, rx_buffer_empty]; omega)
    rw [pf, hl, List.take_length]
  · intro L M hlen
    obtain ⟨hf, hi, hc, _⟩ := pushList_ok L rx_buffer rx_buffer_inv
      (by rw [rx_buffer_empty]; omega)
    rw [pushList_append, hf,
      pushList_full M (pushList L rx_buffer).snd hi
        (by rw [hc, rx_buffer_empty, hlen])]

/-- Witness for C2: three bytes round-trip through the buffer in order, and
a push on a manually-built full buffer is dropped with the state intact. -/
theorem ring_buffer_fifo_and_drop_witness :
    ((∀ x ∈ ([1, 2, 3] : List Nat), x < 256) ∧ ([1, 2, 3] : List Nat).length ≤ 511)
    ∧ (pushList [1, 2, 3] rx_buffer).fst = [true, true, true]
    ∧ (popList 3 (pushList [1, 2, 3] rx_buffer).snd).fst = [1, 2, 3]
    ∧ (bufInv fullBuf ∧ IsDataAvailable fullBuf = 511)
    ∧ store_char 7 fullBuf = (false, fullBuf) := by
  have h := ring_buffer_fifo_and_drop.1 [1, 2, 3] (by decide) (by decide)
  have h2 := ring_buffer_fifo_and_drop.2.1 7 fullBuf
    ⟨by decide, by decide⟩ (by decide)
  exact ⟨⟨by decide, by decide⟩, h.1.trans (by decide), h.2.trans (by decide),
    ⟨⟨by decide, by decide⟩, by decide⟩, h2⟩

/-- Claim C7: after K successful pushes and J ≤ K pops on the initially
empty receive buffer, `IsDataAvailable` returns K − J; and on every state it
computes exactly `(capacity + head - tail) % capacity`. -/
theorem IsDataAvailable_counts_bytes :
    (∀ (L : List Nat) (J : Nat), L.length ≤ 511 → J ≤ L.length →
      IsDataAvailable (popList J (pushList L rx_buffer).snd).snd = L.length - J)
    ∧ (∀ b : ring_buffer,
        IsDataAvailable b = (UART_BUFFER_SIZE + b.head - b.tail) % UART_BUFFER_SIZE) := by
  refine ⟨?_, fun b => rfl⟩
  intro L J hK hJ
  obtain ⟨_, hi, hc, _⟩ := pushList_ok L rx_buffer rx_buffer_inv
    (by rw [rx_buffer_empty]; omega)
  obtain ⟨_, _, hcnt⟩ := popList_ok J (pushList L rx_buffer).snd hi
    (by rw [hc, rx_buffer_empty]; omega)
  rw [hcnt, hc, rx_buffer_empty]
  omega

/-- Witness for C7: two pushes and one pop leave one byte available. -/
theorem IsDataAvailable_counts_bytes_witness :
    (([5, 6] : List Nat).length ≤ 511 ∧ 1 ≤ ([5, 6] : List Nat).length)
    ∧ IsDataAvailable (popList 1 (pushList [5, 6] rx_buffer).snd).snd
        = ([5, 6] : List Nat).length - 1 :=
  ⟨⟨by decide, by decide⟩,
    IsDataAvailable_counts_bytes.1 [5, 6] 1 (by decide) (by decide)⟩

theorem intDigitsLoop_no_digit (l : List Char) (a : Int)
    (h : ∀ c ∈ l, c.isDigit = false) : intDigitsLoop l a = (a, l) := by
  cases l with
  | nil => rfl
  | cons c cs =>
    simp only [intDigitsLoop]
    rw [h c (List.mem_cons_self c cs)]
    simp

theorem fracLoop_no_digit (l : List Char) (a sf : Int)
    (h : ∀ c ∈ l, c.isDigit = false) : fracLoop l a sf = (a, sf) := by
  cases l with
  | nil => rfl
  | cons c cs =>
    simp only [fracLoop]
    rw [if_neg]
    intro hc
    rw [h c (List.mem_cons_self c cs)] at hc
    exact absurd hc.1 (by simp)

theorem fracPart_no_digit (l : List Char) (r sf : Int)
    (h : ∀ c ∈ l, c.isDigit = false) : fracPart l r sf = (r, sf) := by
  cases l with
  | nil => rfl
  | cons c cs =>
    simp only [fracPart]
    split
    · exact fracLoop_no_digit cs r sf (fun d hd => h d (List.mem_cons_of_mem c hd))
    · rfl

theorem scaleLoop_zero (fuel : Nat) (sf : Int) : scaleLoop fuel 0 sf = 0 := by
  induction fuel generalizing sf with
  | zero => rfl
  | succ n ih =>
    simp only [scaleLoop]
    split
    · simpa using ih (sf / 10)
    · rfl

/-- Claim C6: `atof_fixed` (the spec's `parseFixedPoint`) maps
`"1234.5678"` at scale 1000000 to `1234567800`, `"-0.5"` at scale 100 to
`-50`, and any string containing no digit at all (the empty string included)
to `0`, whatever the scale. -/
theorem atof_fixed_values :
    atof_fixed "1234.5678" 1000000 = 1234567800
    ∧ atof_fixed "-0.5" 100 = -50
    ∧ ∀ (s : String) (scale : Int),
        (∀ c ∈ s.data, c.isDigit = false) → atof_fixed s scale = 0 := by
  refine ⟨by decide, by decide, ?_⟩
  intro s scale h
  have h1 : ∀ c ∈ s.data.dropWhile (fun c => c = ' '), c.isDigit = false :=
    fun c hc => h c ((List.dropWhile_sublist _).subset hc)
  simp only [atof_fixed]
  rw [intDigitsLoop_no_digit, fracPart_no_digit, scaleLoop_zero, Int.zero_mul]
  · split
    · intro c hc; exact h1 c (List.mem_of_mem_tail hc)
    · exact h1
  · split
    · intro c hc; exact h1 c (List.mem_of_mem_tail hc)
    · exact h1

/-- Witness for C6 at the digit-free string `"abc"` and scale `7`. -/
theorem atof_fixed_values_witness :
    (∀ c ∈ "abc".data, c.isDigit = false) ∧ atof_fixed "abc" 7 = 0 :=
  ⟨by decide, atof_fixed_values.2.2 "abc" 7 (by decide)⟩

/-- Counterexample to claim C1: on the empty (non-null) sentence and a
non-null record, `decodeGGA` does not return the failure result `-1`. -/
theorem decodeGGA_empty_not_failure :
    (decodeGGA (some "") (some initGPS.ggastruct)).fst ≠ -1 := by decide

/-- Claim C1 as amended: `decodeGGA` on an empty (zero-length but non-null)
sentence returns success (`0`) for every record, leaving the record
unchanged; the `-1` failure is reserved for null arguments. -/
theorem decodeGGA_empty_success (g : GGASTRUCT) :
    decodeGGA (some "") (some g) = (0, some g) := rfl

/-- Claim C10: for every non-null sentence and non-null record, `decodeGGA`
and `decodeRMC` return success (`0`) whatever the sentence's content; the
failure result `-1` is returned exactly when the sentence or the record
pointer is null. -/
theorem decode_nonnull_always_succeeds :
    (∀ (s : String) (g : GGASTRUCT), (decodeGGA (some s) (some g)).fst = 0)
    ∧ (∀ (s : String) (r : RMCSTRUCT), (decodeRMC (some s) (some r)).fst = 0)
    ∧ (∀ (b : Option String) (g : Option GGASTRUCT),
        (decodeGGA b g).fst = -1 ↔ (b = none ∨ g = none))
    ∧ (∀ (b : Option String) (r : Option RMCSTRUCT),
        (decodeRMC b r).fst = -1 ↔ (b = none ∨ r = none)) := by
  refine ⟨fun s g => rfl, fun s r => rfl, ?_, ?_⟩
  · intro b g
    cases b <;> cases g <;> simp [decodeGGA]
  · intro b r
    cases b <;> cases r <;> simp [decodeRMC]

/-- Counterexample to claim C3: with the spec's well-formed GGA sentence and
an empty (non-null, malformed) RMC sentence, `populateGPSData` does not
return a decode failure. -/
theorem populateGPSData_empty_rmc_not_failure :
    (populateGPSData (some ggaExample) (some "") initGPS).fst ≠ -1 := by decide

/-- Claim C3 as amended: with a GGA sentence and an empty (non-null) RMC
sentence, `populateGPSData` returns success (`0`), the GGA half populated
from the GGA sentence and the RMC half unchanged; a decode failure (`-1`)
occurs for a null RMC sentence, and then the already-populated GGA half is
kept with no rollback while the RMC half is only the pre-call value. -/
theorem populateGPSData_partial_population (gs : String) (gps : GPSSTRUCT) :
    populateGPSData (some gs) (some "") gps
      = (0, { gps with ggastruct := decodeGGAcore gs gps.ggastruct })
    ∧ populateGPSData (some gs) none gps
      = (-1, { gps with ggastruct := decodeGGAcore gs gps.ggastruct }) :=
  ⟨rfl, rfl⟩

theorem intTrunc_eq_floor (q : ℚ) (h : 0 ≤ q) : intTrunc q = ⌊q⌋ := by
  rw [intTrunc, Rat.floor_def,
    Int.tdiv_eq_ediv (by exact_mod_cast Rat.num_nonneg.mpr h) (by positivity)]

theorem atofRat_coord_example : atofRat "3749.1234".data = 37491234 / 10000 := by
  have hp : atofParse "3749.1234".data = (false, 3749, "1234".data) := by decide
  have hd : natOfDigits "1234".data = 1234 := by decide
  have hl : "1234".data.length = 4 := by decide
  simp only [atofRat, hp, hd, hl]
  norm_num

theorem atofRat_coord_example_nonneg : 0 ≤ atofRat "3749.1234".data := by
  rw [atofRat_coord_example]; norm_num

/-- Claim C5: `parse_coordinate` computes whole degrees as the raw magnitude
integer-divided by 100 (truncation agrees with the floor on the non-negative
magnitudes), adds the remainder — the minutes — divided by 60, and negates
the result exactly for hemisphere `'S'` or `'W'`; on `"3749.1234"` with
`'N'` it yields 37 + 49.1234/60 ≈ 37.819, positive, and with `'S'` the
negated value. -/
theorem parse_coordinate_spec :
    (∀ (str : List Char) (direction : Char), 0 ≤ atofRat str →
      parse_coordinate str direction =
        (if direction = 'S' ∨ direction = 'W' then (-1 : ℚ) else 1) *
          ((⌊atofRat str / 100⌋ : ℚ) +
            (atofRat str - 100 * (⌊atofRat str / 100⌋ : ℚ)) / 60))
    ∧ parse_coordinate "3749.1234".data 'N' = 37 + 491234 / 600000
    ∧ 0 < parse_coordinate "3749.1234".data 'N'
    ∧ |parse_coordinate "3749.1234".data 'N' - 37819 / 1000| < 1 / 1000
    ∧ parse_coordinate "3749.1234".data 'S'
        = -parse_coordinate "3749.1234".data 'N' := by
  have hgen : ∀ (str : List Char) (direction : Char), 0 ≤ atofRat str →
      parse_coordinate str direction =
        (if direction = 'S' ∨ direction = 'W' then (-1 : ℚ) else 1) *
          ((⌊atofRat str / 100⌋ : ℚ) +
            (atofRat str - 100 * (⌊atofRat str / 100⌋ : ℚ)) / 60) := by
    intro str direction h
    simp only [parse_coordinate,
      intTrunc_eq_floor (atofRat str / 100) (by positivity)]
    split_ifs <;> (push_cast; ring)
  have hN : parse_coordinate "3749.1234".data 'N' = 37 + 491234 / 600000 := by
    rw [hgen _ 'N' atofRat_coord_example_nonneg, atofRat_coord_example]
    have h37 : ⌊(37491234 / 10000 : ℚ) / 100⌋ = 37 := by norm_num
    rw [h37, if_neg (by decide)]
    push_cast
    norm_num
  refine ⟨hgen, hN, ?_, ?_, ?_⟩
  · rw [hN]; norm_num
  · rw [hN]
    rw [abs_of_neg (by norm_num)]
    norm_num
  · simp only [parse_coordinate]
    rw [if_pos (Or.inl trivial), if_neg (by decide)]

/-- Witness for C5 at the magnitude `"3749.1234"` and hemisphere `'W'`. -/
theorem parse_coordinate_spec_witness :
    0 ≤ atofRat "3749.1234".data
    ∧ parse_coordinate "3749.1234".data 'W' =
        (if ('W' = 'S' ∨ 'W' = 'W') then (-1 : ℚ) else 1) *
          ((⌊atofRat "3749.1234".data / 100⌋ : ℚ) +
            (atofRat "3749.1234".data
              - 100 * (⌊atofRat "3749.1234".data / 100⌋ : ℚ)) / 60) :=
  ⟨atofRat_coord_example_nonneg,
    parse_coordinate_spec.1 "3749.1234".data 'W' atofRat_coord_example_nonneg⟩

theorem isDigit_toNat_bounds (c : Char) (h : c.isDigit = true) :
    48 ≤ c.toNat ∧ c.toNat ≤ 57 := by
  simp [Char.isDigit] at h
  exact h

theorem ggaStep_time_eq (g : GGASTRUCT) (n : Nat) (t : List Char) (h : n ≠ 1) :
    (ggaStep g n t).time = g.time := by
  simp only [ggaStep]; split_ifs <;> first | rfl | omega

theorem ggaStep_latitude_eq (g : GGASTRUCT) (n : Nat) (t : List Char) (h : n ≠ 2) :
    (ggaStep g n t).location.latitude = g.location.latitude := by
  simp only [ggaStep]; split_ifs <;> first | rfl | omega

theorem ggaStep_NS_eq (g : GGASTRUCT) (n : Nat) (t : List Char) (h : n ≠ 3) :
    (ggaStep g n t).location.NS = g.location.NS := by
  simp only [ggaStep]; split_ifs <;> first | rfl | omega

theorem ggaStep_longitude_eq (g : GGASTRUCT) (n : Nat) (t : List Char) (h : n ≠ 4) :
    (ggaStep g n t).location.longitude = g.location.longitude := by
  simp only [ggaStep]; split_ifs <;> first | rfl | omega

theorem ggaStep_EW_eq (g : GGASTRUCT) (n : Nat) (t : List Char) (h : n ≠ 5) :
    (ggaStep g n t).location.EW = g.location.EW := by
  simp only [ggaStep]; split_ifs <;> first | rfl | omega

theorem ggaStep_fix_eq (g : GGASTRUCT) (n : Nat) (t : List Char) (h : n ≠ 6) :
    (ggaStep g n t).is_fix_valid = g.is_fix_valid := by
  simp only [ggaStep]; split_ifs <;> first | rfl | omega

theorem ggaStep_sat_eq (g : GGASTRUCT) (n : Nat) (t : List Char) (h : n ≠ 7) :
    (ggaStep g n t).num_of_sat = g.num_of_sat := by
  simp only [ggaStep]; split_ifs <;> first | rfl | omega

theorem ggaStep_alt_eq (g : GGASTRUCT) (n : Nat) (t : List Char) (h : n ≠ 9) :
    (ggaStep g n t).altitude.altitude = g.altitude.altitude := by
  simp only [ggaStep]; split_ifs <;> first | rfl | omega

theorem ggaStep_unit_eq (g : GGASTRUCT) (n : Nat) (t : List Char) (h : n ≠ 10) :
    (ggaStep g n t).altitude.unit = g.altitude.unit := by
  simp only [ggaStep]; split_ifs <;> first | rfl | omega

theorem rmcStep_date_eq (r : RMCSTRUCT) (n : Nat) (t : List Char) (h : n ≠ 1) :
    (rmcStep r n t).date = r.date := by
  simp only [rmcStep]; split_ifs <;> first | rfl | omega

theorem rmcStep_valid_eq (r : RMCSTRUCT) (n : Nat) (t : List Char) (h : n ≠ 2) :
    (rmcStep r n t).is_data_valid = r.is_data_valid := by
  simp only [rmcStep]; split_ifs <;> first | rfl | omega

theorem rmcStep_speed_eq (r : RMCSTRUCT) (n : Nat) (t : List Char) (h : n ≠ 3) :
    (rmcStep r n t).speed_knots = r.speed_knots := by
  simp only [rmcStep]; split_ifs <;> first | rfl | omega

theorem rmcStep_course_eq (r : RMCSTRUCT) (n : Nat) (t : List Char) (h : n ≠ 4) :
    (rmcStep r n t).course = r.course := by
  simp only [rmcStep]; split_ifs <;> first | rfl | omega

theorem ggaLoop_time_eq (ts : List (List Char)) :
    ∀ (g : GGASTRUCT) (n : Nat), (1 < n ∨ n + ts.length ≤ 1) →
      (ggaLoop g n ts).time = g.time := by
  induction ts with
  | nil => intro g n _; rfl
  | cons t ts ih =>
    intro g n h
    simp only [List.length_cons] at h
    simp only [ggaLoop]
    rw [ih (ggaStep g n t) (n + 1) (by omega)]
    exact ggaStep_time_eq g n t (by omega)

theorem ggaLoop_latitude_eq (ts : List (List Char)) :
    ∀ (g : GGASTRUCT) (n : Nat), (2 < n ∨ n + ts.length ≤ 2) →
      (ggaLoop g n ts).location.latitude = g.location.latitude := by
  induction ts with
  | nil => intro g n _; rfl
  | cons t ts ih =>
    intro g n h
    simp only [List.length_cons] at h
    simp only [ggaLoop]
    rw [ih (ggaStep g n t) (n + 1) (by omega)]
    exact ggaStep_latitude_eq g n t (by omega)

theorem ggaLoop_NS_eq (ts : List (List Char)) :
    ∀ (g : GGASTRUCT) (n : Nat), (3 < n ∨ n + ts.length ≤ 3) →
      (ggaLoop g n ts).location.NS = g.location.NS := by
  induction ts with
  | nil => intro g n _; rfl
  | cons t ts ih =>
    intro g n h
    simp only [List.length_cons] at h
    simp only [ggaLoop]
    rw [ih (ggaStep g n t) (n + 1) (by omega)]
    exact ggaStep_NS_eq g n t (by omega)

theorem ggaLoop_longitude_eq (ts : List (List Char)) :
    ∀ (g : GGASTRUCT) (n : Nat), (4 < n ∨ n + ts.length ≤ 4) →
      (ggaLoop g n ts).location.longitude = g.location.longitude := by
  induction ts with
  | nil => intro g n _; rfl
  | cons t ts ih =>
    intro g n h
    simp only [List.length_cons] at h
    simp only [ggaLoop]
    rw [ih (ggaStep g n t) (n + 1) (by omega)]
    exact ggaStep_longitude_eq g n t (by omega)

theorem ggaLoop_EW_eq (ts : List (List Char)) :
    ∀ (g : GGASTRUCT) (n : Nat), (5 < n ∨ n + ts.length ≤ 5) →
      (ggaLoop g n ts).location.EW = g.location.EW := by
  induction ts with
  | nil => intro g n _; rfl
  | cons t ts ih =>
    intro g n h
    simp only [List.length_cons] at h
    simp only [ggaLoop]
    rw [ih (ggaStep g n t) (n + 1) (by omega)]
    exact ggaStep_EW_eq g n t (by omega)

theorem ggaLoop_fix_eq (ts : List (List Char)) :
    ∀ (g : GGASTRUCT) (n : Nat), (6 < n ∨ n + ts.length ≤ 6) →
      (ggaLoop g n ts).is_fix_valid = g.is_fix_valid := by
  induction ts with
  | nil => intro g n _; rfl
  | cons t ts ih =>
    intro g n h
    simp only [List.length_cons] at h
    simp only [ggaLoop]
    rw [ih (ggaStep g n t) (n + 1) (by omega)]
    exact ggaStep_fix_eq g n t (by omega)

theorem ggaLoop_sat_eq (ts : List (List Char)) :
    ∀ (g : GGASTRUCT) (n : Nat), (7 < n ∨ n + ts.length ≤ 7) →
      (ggaLoop g n ts).num_of_sat = g.num_of_sat := by
  induction ts with
  | nil => intro g n _; rfl
  | cons t ts ih =>
    intro g n h
    simp only [List.length_cons] at h
    simp only [ggaLoop]
    rw [ih (ggaStep g n t) (n + 1) (by omega)]
    exact ggaStep_sat_eq g n t (by omega)

theorem ggaLoop_alt_eq (ts : List (List Char)) :
    ∀ (g : GGASTRUCT) (n : Nat), (9 < n ∨ n + ts.length ≤ 9) →
      (ggaLoop g n ts).altitude.altitude = g.altitude.altitude := by
  induction ts with
  | nil => intro g n _; rfl
  | cons t ts ih =>
    intro g n h
    simp only [List.length_cons] at h
    simp only [ggaLoop]
    rw [ih (ggaStep g n t) (n + 1) (by omega)]
    exact ggaStep_alt_eq g n t (by omega)

theorem ggaLoop_unit_eq (ts : List (List Char)) :
    ∀ (g : GGASTRUCT) (n : Nat), (10 < n ∨ n + ts.length ≤ 10) →
      (ggaLoop g n ts).altitude.unit = g.altitude.unit := by
  induction ts with
  | nil => intro g n _; rfl
  | cons t ts ih =>
    intro g n h
    simp only [List.length_cons] at h
    simp only [ggaLoop]
    rw [ih (ggaStep g n t) (n + 1) (by omega)]
    exact ggaStep_unit_eq g n t (by omega)

theorem rmcLoop_date_eq (ts : List (List Char)) :
    ∀ (r : RMCSTRUCT) (n : Nat), (1 < n ∨ n + ts.length ≤ 1) →
      (rmcLoop r n ts).date = r.date := by
  induction ts with
  | nil => intro r n _; rfl
  | cons t ts ih =>
    intro r n h
    simp only [List.length_cons] at h
    simp only [rmcLoop]
    rw [ih (rmcStep r n t) (n + 1) (by omega)]
    exact rmcStep_date_eq r n t (by omega)

theorem rmcLoop_valid_eq (ts : List (List Char)) :
    ∀ (r : RMCSTRUCT) (n : Nat), (2 < n ∨ n + ts.length ≤ 2) →
      (rmcLoop r n ts).is_data_valid = r.is_data_valid := by
  induction ts with
  | nil => intro r n _; rfl
  | cons t ts ih =>
    intro r n h
    simp only [List.length_cons] at h
    simp only [rmcLoop]
    rw [ih (rmcStep r n t) (n + 1) (by omega)]
    exact rmcStep_valid_eq r n t (by omega)

theorem rmcLoop_speed_eq (ts : List (List Char)) :
    ∀ (r : RMCSTRUCT) (n : Nat), (3 < n ∨ n + ts.length ≤ 3) →
      (rmcLoop r n ts).speed_knots = r.speed_knots := by
  induction ts with
  | nil => intro r n _; rfl
  | cons t ts ih =>
    intro r n h
    simp only [List.length_cons] at h
    simp only [rmcLoop]
    rw [ih (rmcStep r n t) (n + 1) (by omega)]
    exact rmcStep_speed_eq r n t (by omega)

theorem rmcLoop_course_eq (ts : List (List Char)) :
    ∀ (r : RMCSTRUCT) (n : Nat), (4 < n ∨ n + ts.length ≤ 4) →
      (rmcLoop r n ts).course = r.course := by
  induction ts with
  | nil => intro r n _; rfl
  | cons t ts ih =>
    intro r n h
    simp only [List.length_cons] at h
    simp only [rmcLoop]
    rw [ih (rmcStep r n t) (n + 1) (by omega)]
    exact rmcStep_course_eq r n t (by omega)

/-- Claim C9: a sentence with fewer fields than the greatest field index a
decoder references leaves every record field whose field index is at or
beyond the token count at its pre-call value, for `decodeGGA` (fields 1-10)
and `decodeRMC` (fields 1-4) alike. -/
theorem decode_missing_trailing_fields (s : String) (g : GGASTRUCT) (r : RMCSTRUCT) :
    ((strtokTokens s.data).length ≤ 1 → (decodeGGAcore s g).time = g.time)
    ∧ ((strtokTokens s.data).length ≤ 2 →
        (decodeGGAcore s g).location.latitude = g.location.latitude)
    ∧ ((strtokTokens s.data).length ≤ 3 →
        (decodeGGAcore s g).location.NS = g.location.NS)
    ∧ ((strtokTokens s.data).length ≤ 4 →
        (decodeGGAcore s g).location.longitude = g.location.longitude)
    ∧ ((strtokTokens s.data).length ≤ 5 →
        (decodeGGAcore s g).location.EW = g.location.EW)
    ∧ ((strtokTokens s.data).length ≤ 6 →
        (decodeGGAcore s g).is_fix_valid = g.is_fix_valid)
    ∧ ((strtokTokens s.data).length ≤ 7 →
        (decodeGGAcore s g).num_of_sat = g.num_of_sat)
    ∧ ((strtokTokens s.data).length ≤ 9 →
        (decodeGGAcore s g).altitude.altitude = g.altitude.altitude)
    ∧ ((strtokTokens s.data).length ≤ 10 →
        (decodeGGAcore s g).altitude.unit = g.altitude.unit)
    ∧ ((strtokTokens s.data).length ≤ 1 → (decodeRMCcore s r).date = r.date)
    ∧ ((strtokTokens s.data).length ≤ 2 →
        (decodeRMCcore s r).is_data_valid = r.is_data_valid)
    ∧ ((strtokTokens s.data).length ≤ 3 →
        (decodeRMCcore s r).speed_knots = r.speed_knots)
    ∧ ((strtokTokens s.data).length ≤ 4 →
        (decodeRMCcore s r).course = r.course) := by
  simp only [decodeGGAcore, decodeRMCcore]
  exact ⟨fun h => ggaLoop_time_eq _ g 0 (Or.inr (by omega)),
    fun h => ggaLoop_latitude_eq _ g 0 (Or.inr (by omega)),
    fun h => ggaLoop_NS_eq _ g 0 (Or.inr (by omega)),
    fun h => ggaLoop_longitude_eq _ g 0 (Or.inr (by omega)),
    fun h => ggaLoop_EW_eq _ g 0 (Or.inr (by omega)),
    fun h => ggaLoop_fix_eq _ g 0 (Or.inr (by omega)),
    fun h => ggaLoop_sat_eq _ g 0 (Or.inr (by omega)),
    fun h => ggaLoop_alt_eq _ g 0 (Or.inr (by omega)),
    fun h => ggaLoop_unit_eq _ g 0 (Or.inr (by omega)),
    fun h => rmcLoop_date_eq _ r 0 (Or.inr (by omega)),
    fun h => rmcLoop_valid_eq _ r 0 (Or.inr (by omega)),
    fun h => rmcLoop_speed_eq _ r 0 (Or.inr (by omega)),
    fun h => rmcLoop_course_eq _ r 0 (Or.inr (by omega))⟩

/-- Witness for C9 on the one-token sentence `"X"` and the zeroed records. -/
theorem decode_missing_trailing_fields_witness :
    (strtokTokens "X".data).length ≤ 1
    ∧ (decodeGGAcore "X" initGPS.ggastruct).time = initGPS.ggastruct.time
    ∧ (decodeRMCcore "X" initGPS.rmcstruct).date = initGPS.rmcstruct.date :=
  ⟨by decide,
    (decode_missing_trailing_fields "X" initGPS.ggastruct initGPS.rmcstruct).1
      (by decide),
    (decode_missing_trailing_fields "X" initGPS.ggastruct
      initGPS.rmcstruct).2.2.2.2.2.2.2.2.2.1 (by decide)⟩

/-- Claim C8: when the token at field index 1 of an RMC sentence is six
ASCII digits DDMMYY, `decodeRMC` stores the value of the first two digits as
the day, the next two as the month, and 2000 plus the last two as the
year. -/
theorem decodeRMC_date_fields (s : String) (r : RMCSTRUCT)
    (t0 d : List Char) (rest : List (List Char)) (c0 c1 c2 c3 c4 c5 : Char)
    (htok : strtokTokens s.data = t0 :: d :: rest)
    (hd : d = [c0, c1, c2, c3, c4, c5])
    (hdig : ∀ c ∈ d, c.isDigit = true) :
    (decodeRMCcore s r).date.day = (c0.toNat - 48) * 10 + (c1.toNat - 48)
    ∧ (decodeRMCcore s r).date.month = (c2.toNat - 48) * 10 + (c3.toNat - 48)
    ∧ (decodeRMCcore s r).date.year = 2000 + (c4.toNat - 48) * 10 + (c5.toNat - 48) := by
  subst hd
  have h0 := isDigit_toNat_bounds c0 (hdig c0 (by simp))
  have h1 := isDigit_toNat_bounds c1 (hdig c1 (by simp))
  have h2 := isDigit_toNat_bounds c2 (hdig c2 (by simp))
  have h3 := isDigit_toNat_bounds c3 (hdig c3 (by simp))
  have h4 := isDigit_toNat_bounds c4 (hdig c4 (by simp))
  have h5 := isDigit_toNat_bounds c5 (hdig c5 (by simp))
  simp only [decodeRMCcore, htok, rmcLoop]
  rw [rmcLoop_date_eq rest _ 2 (Or.inl (by omega))]
  have hstep : (rmcStep (rmcStep r 0 t0) 1 [c0, c1, c2, c3, c4, c5]).date
      = { day := (((digitVal c0) * 10 + digitVal c1) % 256).toNat,
          month := (((digitVal c2) * 10 + digitVal c3) % 256).toNat,
          year := ((2000 + (digitVal c4) * 10 + digitVal c5) % 65536).toNat } := by
    simp [rmcStep, charAt]
  rw [hstep]
  simp only [digitVal]
  refine ⟨?_, ?_, ?_⟩ <;> omega

/-- Witness for C8 on the RMC sentence `"$GPRMC,101221,A"`, whose date field
`"101221"` decodes to day 10, month 12, year 2021. -/
theorem decodeRMC_date_fields_witness :
    strtokTokens "$GPRMC,101221,A".data
      = ["$GPRMC".data, "101221".data, "A".data]
    ∧ (decodeRMCcore "$GPRMC,101221,A" initGPS.rmcstruct).date.day = 10
    ∧ (decodeRMCcore "$GPRMC,101221,A" initGPS.rmcstruct).date.month = 12
    ∧ (decodeRMCcore "$GPRMC,101221,A" initGPS.rmcstruct).date.year = 2021 := by
  have h := decodeRMC_date_fields "$GPRMC,101221,A" initGPS.rmcstruct
    "$GPRMC".data "101221".data ["A".data] '1' '0' '1' '2' '2' '1'
    (by decide) (by decide) (by decide)
  exact ⟨by decide, h.1.trans (by decide), h.2.1.trans (by decide),
    h.2.2.trans (by decide)⟩

/-- Claim C4: the `strtok`-based tokenization the decoders use collapses
adjacent delimiters, so it does not yield the empty field between two
adjacent commas that the spec's tokenizer (§4.4) yields, and later fields
lose their positional index: in `"$GPRMC,,A,1.5,90.0"` the validity flag
`'A'` (positional field 2) shifts into token index 1, so the decoder reads
field 2 from `"1.5"` and records the data as invalid. -/
theorem strtok_drops_empty_fields :
    specFieldSlices "A,,B".data = [['A'], [], ['B']]
    ∧ strtokTokens "A,,B".data = [['A'], ['B']]
    ∧ (decodeRMCcore "$GPRMC,,A,1.5,90.0" initGPS.rmcstruct).is_data_valid = 0 :=
  ⟨by decide, by decide, by decide⟩
